import Mathlib

/-!
Verification of the dice-game repository (three variants: `game.py`, `game2.py`,
`gam4.py`) against its natural-language specification.

The Python sources are shallowly embedded below.  Randomness (`secrets.token_bytes`,
`secrets.randbelow`, `secrets.choice`) is modelled by passing the drawn values in
explicitly; Python's arbitrary-precision integers are `Int`; Python's floor
division `//` and floor modulo `%` are `Int.fdiv` / `Int.fmod`; a Python
`ZeroDivisionError` is an explicit `Except` error; interactive `input()` is
modelled by a list of input lines consumed one per loop iteration.
-/

/-- A die: an ordered list of integer face values (`class Dice` in all three files). -/
structure Dice where
  values : List Int
deriving Repr, DecidableEq

/-- Arithmetic failure raised by Python at runtime (`ZeroDivisionError`). -/
inductive FairError where
  | divisionByZero
deriving Repr, DecidableEq

namespace GamePy

/-- `RandomFairGenerator.generate_fair_number` of `game.py` (lines 24-31) and
`gam4.py` (lines 24-31): the HMAC-SHA3-256 of a random seed is computed under
`key` and its first two bytes, read big-endian, give a raw sample
`raw < 2^16`; the function returns `raw % (upper - lower + 1) + lower`.
The raw sample is passed in explicitly.  Python's `%` is floor-mod
(`Int.fmod`) and raises `ZeroDivisionError` on a zero modulus. -/
def generate_fair_number (lower upper : Int) (raw : Nat) : Except FairError Int :=
  if upper - lower + 1 = 0 then .error .divisionByZero
  else .ok (Int.fmod raw (upper - lower + 1) + lower)

end GamePy

namespace Game2

/-- The acceptance test of the rejection loop in
`RandomFairGenerator.generate_fair_number` of `game2.py` (line 37):
`random_value < range_size * (2**16 // range_size)`, with Python's floor
division `//` (`Int.fdiv`). -/
def accepts (rangeSize : Int) (raw : Nat) : Bool :=
  (raw : Int) < rangeSize * Int.fdiv 65536 rangeSize

/-- The `while True` rejection loop of `generate_fair_number` in `game2.py`
(lines 34-38), modelled over a finite stream of 2-byte draws; `none` means the
stream was exhausted with every draw rejected (the loop would keep drawing). -/
def acceptLoop (rangeSize : Int) : List Nat → Option Nat
  | [] => none
  | r :: rest => if accepts rangeSize r then some r else acceptLoop rangeSize rest

/-- `RandomFairGenerator.generate_fair_number` of `game2.py` (lines 30-39):
computes `range_size = upper - lower + 1`, repeatedly draws a 2-byte value
until it passes the rejection test, then returns
`random_value % range_size + lower`.  The `key` argument of the source is
ignored by its body and therefore omitted.  Evaluating the rejection test with
`range_size = 0` divides by zero. -/
def generate_fair_number (lower upper : Int) (draws : List Nat) :
    Except FairError (Option Int) :=
  let rangeSize := upper - lower + 1
  if rangeSize = 0 then .error .divisionByZero
  else .ok ((acceptLoop rangeSize draws).map fun r => Int.fmod r rangeSize + lower)

end Game2

/-- Counting lemma: among `List.range s`, exactly one element equals `k` when
`k < s`, none otherwise. -/
theorem countP_beq_range (k s : Nat) :
    (List.range s).countP (fun i => i == k) = if k < s then 1 else 0 := by
  induction s with
  | zero => simp
  | succ s ih =>
    rw [List.range_succ, List.countP_append, ih]
    simp only [List.countP_cons, List.countP_nil, beq_iff_eq]
    split_ifs <;> omega

/-- Counting lemma: in a block of `s ≤ n` consecutive naturals starting at a
multiple of `n`, exactly one element has residue `k` mod `n` when `k < s`. -/
theorem countP_mod_offset_range (n c s k : Nat) (hs : s ≤ n) :
    ((List.range s).map (fun i => n * c + i)).countP (fun r => r % n == k)
      = if k < s then 1 else 0 := by
  rw [List.countP_map]
  have h1 : ∀ i ∈ List.range s,
      (((fun r => r % n == k) ∘ fun i => n * c + i) i = true ↔ (i == k) = true) := by
    intro i hi
    have hi' : i < s := List.mem_range.mp hi
    simp only [Function.comp_apply, beq_iff_eq]
    rw [Nat.add_comm, Nat.add_mul_mod_self_left, Nat.mod_eq_of_lt (lt_of_lt_of_le hi' hs)]
  rw [List.countP_congr h1, countP_beq_range]

/-- Counting lemma: among `List.range (n * q)` exactly `q` elements have
residue `k` mod `n`, for every `k < n`. -/
theorem countP_mod_range_mul (n q k : Nat) (hk : k < n) :
    (List.range (n * q)).countP (fun r => r % n == k) = q := by
  induction q with
  | zero => simp
  | succ q ih =>
    rw [Nat.mul_succ, List.range_add, List.countP_append, ih,
      countP_mod_offset_range n q n k (le_refl n), if_pos hk]

/-- Claim C6: whenever `upper >= lower`, `generate_fair_number` (both the
`game.py`/`gam4.py` modulo version and the `game2.py` rejection version) only
ever returns values `v` with `lower <= v <= upper`. -/
theorem generate_fair_number_in_range (lower upper : Int) (raw : Nat)
    (draws : List Nat) (h : lower ≤ upper) :
    (∀ v, GamePy.generate_fair_number lower upper raw = .ok v →
      lower ≤ v ∧ v ≤ upper) ∧
    (∀ v, Game2.generate_fair_number lower upper draws = .ok (some v) →
      lower ≤ v ∧ v ≤ upper) := by
  have hpos : 0 < upper - lower + 1 := by omega
  have hne : upper - lower + 1 ≠ 0 := by omega
  have hmod : ∀ a : Int, lower ≤ Int.fmod a (upper - lower + 1) + lower ∧
      Int.fmod a (upper - lower + 1) + lower ≤ upper := by
    intro a
    rw [Int.fmod_eq_emod a (le_of_lt hpos)]
    have h1 := Int.emod_nonneg a hne
    have h2 := Int.emod_lt_of_pos a hpos
    omega
  constructor
  · intro v hv
    unfold GamePy.generate_fair_number at hv
    rw [if_neg hne] at hv
    cases hv
    exact hmod raw
  · intro v hv
    unfold Game2.generate_fair_number at hv
    rw [if_neg hne] at hv
    have hmap : (Game2.acceptLoop (upper - lower + 1) draws).map
        (fun r => Int.fmod r (upper - lower + 1) + lower) = some v :=
      Except.ok.inj hv
    rcases Option.map_eq_some'.mp hmap with ⟨r, _, hr⟩
    rw [← hr]
    exact hmod r

/-- Witness for `generate_fair_number_in_range` at `lower = 0`, `upper = 3`,
`raw = 5`, `draws = [5]`: the modulo version returns 1 and `0 ≤ 1 ∧ 1 ≤ 3`. -/
theorem generate_fair_number_in_range_witness : (0 : Int) ≤ 1 ∧ (1 : Int) ≤ 3 :=
  (generate_fair_number_in_range 0 3 5 [5] (by decide)).1 1 rfl

/-- Claim C7 counterexample: with `lower = 0`, `upper = -2` (so `upper < lower`)
both versions of `generate_fair_number` return the value 0 instead of failing:
no `InvalidRangeError` check exists in the code. -/
theorem generate_fair_number_negative_range_returns :
    GamePy.generate_fair_number 0 (-2) 5 = .ok 0 ∧
    Game2.generate_fair_number 0 (-2) [5] = .ok (some 0) :=
  ⟨rfl, rfl⟩

/-- Claim C7 amended: the code never raises an `InvalidRangeError` (none
exists).  When `upper = lower - 1` (range size 0) both versions fail with a
`ZeroDivisionError`; when `upper < lower - 1` the `game.py`/`gam4.py` modulo
version returns a value (floor-mod by a negative modulus) rather than failing. -/
theorem generate_fair_number_invalid_range_behavior (lower upper : Int)
    (raw : Nat) (draws : List Nat) :
    (upper + 1 = lower →
      GamePy.generate_fair_number lower upper raw = .error .divisionByZero ∧
      Game2.generate_fair_number lower upper draws = .error .divisionByZero) ∧
    (upper + 1 < lower →
      (GamePy.generate_fair_number lower upper raw).isOk = true) := by
  constructor
  · intro h
    have h0 : upper - lower + 1 = 0 := by omega
    constructor
    · unfold GamePy.generate_fair_number
      rw [if_pos h0]
    · show (if upper - lower + 1 = 0 then
          (.error .divisionByZero : Except FairError (Option Int))
        else .ok ((Game2.acceptLoop (upper - lower + 1) draws).map
          fun r => Int.fmod r (upper - lower + 1) + lower))
        = .error .divisionByZero
      rw [if_pos h0]
  · intro h
    have h0 : upper - lower + 1 ≠ 0 := by omega
    unfold GamePy.generate_fair_number
    rw [if_neg h0]
    rfl

/-- Witness for `generate_fair_number_invalid_range_behavior`: at
`(lower, upper) = (0, -1)` both versions divide by zero; at `(0, -3)` the
modulo version still returns a value. -/
theorem generate_fair_number_invalid_range_witness :
    (GamePy.generate_fair_number 0 (-1) 7 = .error .divisionByZero ∧
      Game2.generate_fair_number 0 (-1) [3] = .error .divisionByZero) ∧
    (GamePy.generate_fair_number 0 (-3) 7).isOk = true :=
  ⟨(generate_fair_number_invalid_range_behavior 0 (-1) 7 [3]).1 (by decide),
   (generate_fair_number_invalid_range_behavior 0 (-3) 7 []).2 (by decide)⟩

/-- The count of raw two-byte samples that the `game.py`/`gam4.py` modulo
version maps onto a given outcome equals the count of residues, for every
outcome of `[0, 5]` with range size 6. -/
theorem gamePy_fair_number_preimage_count (k : Nat) (hk : k < 6) :
    (List.range 65536).countP
        (fun r => (GamePy.generate_fair_number 0 5 r).toOption == some (k : Int))
      = 10922 + (if k < 4 then 1 else 0) := by
  have hcongr : ∀ r ∈ List.range 65536,
      ((fun r => (GamePy.generate_fair_number 0 5 r).toOption == some (k : Int)) r = true ↔
        (fun r => r % 6 == k) r = true) := by
    intro r _
    show ((GamePy.generate_fair_number 0 5 r).toOption == some (k : Int)) = true ↔
        (r % 6 == k) = true
    unfold GamePy.generate_fair_number
    rw [if_neg (by norm_num : ¬(5 - 0 + 1 : Int) = 0)]
    show ((some (Int.fmod r (5 - 0 + 1) + 0) : Option Int) == some (k : Int)) = true ↔ _
    have h6 : (5 - 0 + 1 : Int) = 6 := by norm_num
    rw [h6, Int.fmod_eq_emod _ (by norm_num)]
    have hcast : ((r : Int)) % 6 = ((r % 6 : Nat) : Int) := by
      rw [Int.ofNat_emod]
      rfl
    rw [hcast]
    simp only [beq_iff_eq, Option.some.injEq, Int.add_zero]
    exact_mod_cast Iff.rfl
  rw [List.countP_congr hcongr]
  have h65536 : (65536 : Nat) = 6 * 10922 + 4 := by norm_num
  rw [h65536, List.range_add, List.countP_append, countP_mod_range_mul 6 10922 k hk,
    countP_mod_offset_range 6 10922 4 k (by omega)]

/-- Claim C4 counterexample: the `game.py`/`gam4.py` version of
`generate_fair_number` does NOT perform rejection sampling.  For range
`[0, 5]` the unbiased threshold is `2^16 - (2^16 mod 6) = 65532`, yet the raw
sample 65533 (at/above the threshold) is mapped straight to the outcome 1
instead of being rejected, and the outcomes do not have equal probability
under a uniform raw sample: outcome 0 has 10923 preimages in `[0, 2^16)`
while outcome 5 has 10922. -/
theorem gamePy_fair_number_modulo_biased :
    GamePy.generate_fair_number 0 5 65533 = .ok 1 ∧
    (65536 : Int) - Int.fmod 65536 6 ≤ 65533 ∧
    (List.range 65536).countP
        (fun r => (GamePy.generate_fair_number 0 5 r).toOption == some 0) = 10923 ∧
    (List.range 65536).countP
        (fun r => (GamePy.generate_fair_number 0 5 r).toOption == some 5) = 10922 := by
  refine ⟨rfl, by decide, ?_, ?_⟩
  · have h := gamePy_fair_number_preimage_count 0 (by omega)
    norm_num at h
    exact_mod_cast h
  · have h := gamePy_fair_number_preimage_count 5 (by omega)
    norm_num at h
    exact_mod_cast h

/-- Counting lemma: among `List.range (m * q + s)`, exactly `q` elements both
lie below the cutoff `m * q` and have residue `k` mod `m`, for `k < m`. -/
theorem countP_accept_mod (m q s k : Nat) (hk : k < m) :
    (List.range (m * q + s)).countP
        (fun r => decide (r < m * q) && (r % m == k)) = q := by
  rw [List.range_add, List.countP_append]
  have h1 : (List.range (m * q)).countP (fun r => decide (r < m * q) && (r % m == k))
      = (List.range (m * q)).countP (fun r => r % m == k) := by
    apply List.countP_congr
    intro r hr
    have hlt : r < m * q := List.mem_range.mp hr
    simp [hlt]
  have h2 : ((List.range s).map (fun i => m * q + i)).countP
      (fun r => decide (r < m * q) && (r % m == k)) = 0 := by
    rw [List.countP_eq_zero]
    intro a ha
    rcases List.mem_map.mp ha with ⟨i, _, rfl⟩
    simp only [Bool.and_eq_true, decide_eq_true_eq, not_and]
    intro hcontra
    omega
  rw [h1, h2, countP_mod_range_mul m q k hk, Nat.add_zero]

/-- Claim C4 amended: the `game2.py` version is a genuine unbiased rejection
sampler — its threshold equals `2^16 - (2^16 mod rangeSize)`, a raw sample is
accepted exactly when strictly below that threshold, an accepted draw is mapped
to `raw mod rangeSize + lower`, and every outcome in `[lower, upper]` has
exactly `2^16 / rangeSize` accepted raw preimages; the `game.py`/`gam4.py`
version instead applies a naive modulo (see the counterexample). -/
theorem game2_rejection_sampling_uniform (lower upper : Int)
    (h : lower ≤ upper) (hsz : upper - lower + 1 ≤ 65536) :
    ((upper - lower + 1) * Int.fdiv 65536 (upper - lower + 1)
        = 65536 - Int.fmod 65536 (upper - lower + 1)) ∧
    (∀ r : Nat, Game2.accepts (upper - lower + 1) r
        = decide ((r : Int) < 65536 - Int.fmod 65536 (upper - lower + 1))) ∧
    (∀ r : Nat, ∀ rest : List Nat, Game2.accepts (upper - lower + 1) r = true →
      Game2.generate_fair_number lower upper (r :: rest)
        = .ok (some (Int.fmod r (upper - lower + 1) + lower))) ∧
    (∀ v : Int, lower ≤ v → v ≤ upper →
      ((List.range 65536).countP (fun r =>
          Game2.accepts (upper - lower + 1) r
            && (Int.fmod (r : Int) (upper - lower + 1) + lower == v)))
        = 65536 / (upper - lower + 1).toNat) := by
  have hpos : (0 : Int) < upper - lower + 1 := by omega
  have hthr : (upper - lower + 1) * Int.fdiv 65536 (upper - lower + 1)
      = 65536 - Int.fmod 65536 (upper - lower + 1) := by
    rw [Int.fdiv_eq_ediv _ (le_of_lt hpos), Int.fmod_eq_emod _ (le_of_lt hpos)]
    have := Int.ediv_add_emod 65536 (upper - lower + 1)
    omega
  refine ⟨hthr, ?_, ?_, ?_⟩
  · intro r
    unfold Game2.accepts
    rw [hthr]
  · intro r rest hacc
    show (if upper - lower + 1 = 0 then
        (.error .divisionByZero : Except FairError (Option Int))
      else .ok ((Game2.acceptLoop (upper - lower + 1) (r :: rest)).map
        fun x => Int.fmod x (upper - lower + 1) + lower))
      = .ok (some (Int.fmod r (upper - lower + 1) + lower))
    rw [if_neg (by omega)]
    unfold Game2.acceptLoop
    rw [if_pos hacc]
    rfl
  · intro v hv1 hv2
    have hmz : ((upper - lower + 1).toNat : Int) = upper - lower + 1 :=
      Int.toNat_of_nonneg (le_of_lt hpos)
    set m : Nat := (upper - lower + 1).toNat with hm
    have hm1 : 1 ≤ m := by omega
    set q : Nat := 65536 / m with hq
    set k : Nat := (v - lower).toNat with hkdef
    have hkc : (k : Int) = v - lower := Int.toNat_of_nonneg (by omega)
    have hk : k < m := by omega
    have haccEq : ∀ r : Nat,
        Game2.accepts (upper - lower + 1) r = decide (r < m * q) := by
      intro r
      unfold Game2.accepts
      apply decide_eq_decide.mpr
      rw [← hmz, Int.fdiv_eq_ediv _ (by positivity),
        show ((65536 : Int)) = ((65536 : Nat) : Int) from rfl,
        ← Int.ofNat_ediv, ← hq, ← Nat.cast_mul, Nat.cast_lt]
    have houtEq : ∀ r : Nat,
        (Int.fmod (r : Int) (upper - lower + 1) + lower == v) = ((r % m) == k) := by
      intro r
      rw [Bool.eq_iff_iff]
      simp only [beq_iff_eq]
      rw [Int.fmod_eq_emod _ (le_of_lt hpos), ← hmz, ← Int.ofNat_emod]
      omega
    have hcongr : ∀ r ∈ List.range 65536,
        ((fun r : Nat => Game2.accepts (upper - lower + 1) r
            && (Int.fmod (r : Int) (upper - lower + 1) + lower == v)) r = true ↔
          (fun r : Nat => decide (r < m * q) && ((r % m) == k)) r = true) := by
      intro r _
      show (Game2.accepts (upper - lower + 1) r
          && (Int.fmod (r : Int) (upper - lower + 1) + lower == v)) = true ↔
        (decide (r < m * q) && ((r % m) == k)) = true
      rw [haccEq r, houtEq r]
    rw [List.countP_congr hcongr]
    have hle : m * q ≤ 65536 := by
      rw [hq, Nat.mul_comm]
      exact Nat.div_mul_le_self 65536 m
    rw [show (65536 : Nat) = m * q + (65536 - m * q) by omega]
    rw [countP_accept_mod m q (65536 - m * q) k hk]

/-- Witness for `game2_rejection_sampling_uniform` at range `[0, 1]`: the raw
draw 2 is accepted and mapped to `2 mod 2 + 0 = 0`. -/
theorem game2_rejection_sampling_uniform_witness :
    Game2.generate_fair_number 0 1 [2] = .ok (some (Int.fmod 2 (1 - 0 + 1) + 0)) :=
  (game2_rejection_sampling_uniform 0 1 (by decide) (by decide)).2.2.1 2 [] (by decide)

/-- One step of the digit run accepted by Python's `int()`: after the first
digit, a single underscore may separate two digits (Python's integer-literal
grouping rule); any other character raises `ValueError`. -/
def pyDigitsAux : List Char → Nat → Option Nat
  | [], acc => some acc
  | '_' :: c :: cs, acc =>
      if c.isDigit then pyDigitsAux cs (acc * 10 + (c.toNat - 48)) else none
  | c :: cs, acc =>
      if c.isDigit then pyDigitsAux cs (acc * 10 + (c.toNat - 48)) else none

/-- A nonempty digit run (leading underscore not allowed). -/
def pyNatDigits : List Char → Option Nat
  | [] => none
  | c :: cs => if c.isDigit then pyDigitsAux cs (c.toNat - 48) else none

/-- The whitespace characters stripped by Python's `int()`. -/
def isSpaceChar (c : Char) : Bool :=
  c = ' ' || c = '\t' || c = '\n' || c = '\r' || c = '\x0b' || c = '\x0c'

/-- Strip leading and trailing whitespace. -/
def trimChars (cs : List Char) : List Char :=
  ((cs.dropWhile isSpaceChar).reverse.dropWhile isSpaceChar).reverse

/-- Models Python's `int(token)` as applied by `validate_arguments` to each
comma-separated token: surrounding whitespace is stripped, an optional single
sign is allowed, then a nonempty digit run; everything else raises
`ValueError` (`none`). -/
def pyInt (t : List Char) : Option Int :=
  match trimChars t with
  | '+' :: rest => (pyNatDigits rest).map (fun n => (n : Int))
  | '-' :: rest => (pyNatDigits rest).map (fun n => -(n : Int))
  | cs => (pyNatDigits cs).map (fun n => (n : Int))

/-- Python's `arg.split(',')`: split at every comma, keeping empty pieces. -/
def splitComma : List Char → List (List Char)
  | [] => [[]]
  | c :: cs =>
    if c = ',' then [] :: splitComma cs
    else
      match splitComma cs with
      | t :: ts => (c :: t) :: ts
      | [] => [[c]]

/-- `list(map(int, arg.split(',')))`: all tokens must parse; the first bad
token raises `ValueError` (`none`). -/
def parseTokens : List (List Char) → Option (List Int)
  | [] => some []
  | t :: ts =>
    match pyInt t, parseTokens ts with
    | some v, some vs => some (v :: vs)
    | _, _ => none

/-- The four distinct `ValueError` messages raised by
`DiceGame.validate_arguments`, one constructor per message (the offending
argument is carried where the message interpolates it). -/
inductive ValidationError where
  | insufficientDice
  | malformedDie (arg : String)
  | insufficientFaces (arg : String)
  | inconsistentFaceCount (arg : String)
deriving Repr, DecidableEq

/-- The per-argument loop of `DiceGame.validate_arguments` (identical in
`game.py` lines 50-67, `game2.py` lines 58-72, `gam4.py` lines 50-64):
`sides` is the `dice_sides` variable (`None` initially), `acc` the dice
accumulated so far (most recent first). -/
def validateLoop : List String → Option Nat → List Dice →
    Except ValidationError (List Dice)
  | [], _, acc => .ok acc.reverse
  | arg :: rest, sides, acc =>
    match parseTokens (splitComma arg.data) with
    | none => .error (.malformedDie arg)
    | some values =>
      if values.length < 4 then .error (.insufficientFaces arg)
      else
        match sides with
        | none => validateLoop rest (some values.length) (⟨values⟩ :: acc)
        | some n =>
          if values.length ≠ n then .error (.inconsistentFaceCount arg)
          else validateLoop rest (some n) (⟨values⟩ :: acc)

/-- `DiceGame.validate_arguments` (identical in all three files): `args` is
`sys.argv[1:]`, so the `len(sys.argv) < 4` guard is `args.length < 3`. -/
def validate_arguments (args : List String) : Except ValidationError (List Dice) :=
  if args.length < 3 then .error .insufficientDice
  else validateLoop args none []

/-- A die spec contains a token rejected by Python's `int()`. -/
def dieMalformed (arg : String) : Prop := ∃ t ∈ splitComma arg.data, pyInt t = none

/-- The number of comma-separated tokens of a die spec (its face count once
all tokens parse). -/
def faceCount (arg : String) : Nat := (splitComma arg.data).length

/-- The disjunction of the four failure conditions named by the spec. -/
def badDiceArgs (args : List String) : Prop :=
  args.length < 3 ∨ (∃ a ∈ args, dieMalformed a) ∨
    (∃ a ∈ args, faceCount a < 4) ∨
    (∃ a ∈ args, ∃ b ∈ args, faceCount a ≠ faceCount b)

/-- Which failure condition each returned error is evidence of. -/
def errorMatches (args : List String) : ValidationError → Prop
  | .insufficientDice => args.length < 3
  | .malformedDie a => a ∈ args ∧ dieMalformed a
  | .insufficientFaces a => a ∈ args ∧ faceCount a < 4
  | .inconsistentFaceCount a => a ∈ args ∧ ∃ b ∈ args, faceCount b ≠ faceCount a

/-- Successful token parsing preserves the token count. -/
theorem parseTokens_length : ∀ {ts : List (List Char)} {vs : List Int},
    parseTokens ts = some vs → vs.length = ts.length := by
  intro ts
  induction ts with
  | nil =>
    intro vs h
    cases h
    rfl
  | cons t ts ih =>
    intro vs h
    unfold parseTokens at h
    cases hpt : pyInt t with
    | none =>
      rw [hpt] at h
      cases h
    | some v =>
      rw [hpt] at h
      cases hrec : parseTokens ts with
      | none =>
        rw [hrec] at h
        cases h
      | some vs2 =>
        rw [hrec] at h
        cases h
        simp [ih hrec]

/-- Token parsing fails exactly when some token is rejected. -/
theorem parseTokens_eq_none : ∀ {ts : List (List Char)},
    parseTokens ts = none ↔ ∃ t ∈ ts, pyInt t = none := by
  intro ts
  induction ts with
  | nil => simp [parseTokens]
  | cons t ts ih =>
    unfold parseTokens
    cases hpt : pyInt t with
    | none => simp [hpt]
    | some v =>
      cases hrec : parseTokens ts with
      | none =>
        simp only [hrec]
        constructor
        · intro _
          rcases ih.mp hrec with ⟨u, hu, hnone⟩
          exact ⟨u, List.mem_cons_of_mem _ hu, hnone⟩
        · intro _
          trivial
      | some vs2 =>
        simp only [hrec]
        constructor
        · intro h
          cases h
        · rintro ⟨u, hu, hnone⟩
          rcases List.mem_cons.mp hu with rfl | hu2
          · rw [hpt] at hnone
            cases hnone
          · have : parseTokens ts = none := ih.mpr ⟨u, hu2, hnone⟩
            rw [hrec] at this
            cases this

/-- Every error produced by the validation loop is evidence of the matching
failure condition among the remaining arguments (relative to the running
`sides` value). -/
theorem validateLoop_error (rest : List String) :
    ∀ (sides : Option Nat) (acc : List Dice) (e : ValidationError),
    validateLoop rest sides acc = .error e →
    (match e with
     | .insufficientDice => False
     | .malformedDie a => a ∈ rest ∧ dieMalformed a
     | .insufficientFaces a => a ∈ rest ∧ faceCount a < 4
     | .inconsistentFaceCount a => a ∈ rest ∧
         ((∃ b ∈ rest, faceCount b ≠ faceCount a) ∨
           (∃ n, sides = some n ∧ faceCount a ≠ n))) := by
  induction rest with
  | nil =>
    intro sides acc e h
    exact Except.noConfusion h
  | cons arg rest ih =>
    intro sides acc e h
    unfold validateLoop at h
    cases hp : parseTokens (splitComma arg.data) with
    | none =>
      rw [hp] at h
      cases h
      exact ⟨List.mem_cons_self _ _, parseTokens_eq_none.mp hp⟩
    | some values =>
      simp only [hp] at h
      have hfc : faceCount arg = values.length := (parseTokens_length hp).symm
      by_cases h4 : values.length < 4
      · rw [if_pos h4] at h
        cases h
        exact ⟨List.mem_cons_self _ _, by omega⟩
      · rw [if_neg h4] at h
        cases sides with
        | none =>
          have hres := ih (some values.length) (⟨values⟩ :: acc) e h
          cases e with
          | insufficientDice => exact hres
          | malformedDie a => exact ⟨List.mem_cons_of_mem _ hres.1, hres.2⟩
          | insufficientFaces a => exact ⟨List.mem_cons_of_mem _ hres.1, hres.2⟩
          | inconsistentFaceCount a =>
            refine ⟨List.mem_cons_of_mem _ hres.1, Or.inl ?_⟩
            rcases hres.2 with ⟨b, hb, hbne⟩ | ⟨n, hn, hne⟩
            · exact ⟨b, List.mem_cons_of_mem _ hb, hbne⟩
            · refine ⟨arg, List.mem_cons_self _ _, ?_⟩
              cases hn
              omega
        | some n =>
          simp only [] at h
          by_cases hne : values.length ≠ n
          · rw [if_pos hne] at h
            cases h
            exact ⟨List.mem_cons_self _ _, Or.inr ⟨n, rfl, by omega⟩⟩
          · rw [if_neg hne] at h
            have hres := ih (some n) (⟨values⟩ :: acc) e h
            cases e with
            | insufficientDice => exact hres
            | malformedDie a => exact ⟨List.mem_cons_of_mem _ hres.1, hres.2⟩
            | insufficientFaces a => exact ⟨List.mem_cons_of_mem _ hres.1, hres.2⟩
            | inconsistentFaceCount a =>
              refine ⟨List.mem_cons_of_mem _ hres.1, ?_⟩
              rcases hres.2 with ⟨b, hb, hbne⟩ | ⟨m, hm, hmne⟩
              · exact Or.inl ⟨b, List.mem_cons_of_mem _ hb, hbne⟩
              · cases hm
                exact Or.inr ⟨n, rfl, hmne⟩

/-- When the validation loop succeeds, every remaining argument parses, has at
least 4 faces, agrees with the running `sides` value, and agrees with every
other remaining argument. -/
theorem validateLoop_ok (rest : List String) :
    ∀ (sides : Option Nat) (acc : List Dice) (dice : List Dice),
    validateLoop rest sides acc = .ok dice →
    ∀ a ∈ rest, ¬ dieMalformed a ∧ 4 ≤ faceCount a ∧
      (∀ n, sides = some n → faceCount a = n) ∧
      (∀ b ∈ rest, faceCount a = faceCount b) := by
  induction rest with
  | nil =>
    intro sides acc dice _ a ha
    exact absurd ha (List.not_mem_nil a)
  | cons arg rest ih =>
    intro sides acc dice h a ha
    unfold validateLoop at h
    cases hp : parseTokens (splitComma arg.data) with
    | none =>
      rw [hp] at h
      cases h
    | some values =>
      simp only [hp] at h
      have hfc : faceCount arg = values.length := (parseTokens_length hp).symm
      by_cases h4 : values.length < 4
      · rw [if_pos h4] at h
        cases h
      · rw [if_neg h4] at h
        have hnm : ¬ dieMalformed arg := by
          intro hmal
          have hcontra : parseTokens (splitComma arg.data) = none :=
            parseTokens_eq_none.mpr hmal
          rw [hp] at hcontra
          cases hcontra
        cases sides with
        | none =>
          have hrec := ih (some values.length) (⟨values⟩ :: acc) dice h
          have hrest_eq : ∀ b ∈ rest, faceCount b = values.length := by
            intro b hb
            exact (hrec b hb).2.2.1 values.length rfl
          rcases List.mem_cons.mp ha with rfl | ha2
          · refine ⟨hnm, by omega, ?_, ?_⟩
            · intro n hn
              cases hn
            · intro b hb
              rcases List.mem_cons.mp hb with rfl | hb2
              · rfl
              · rw [hfc, hrest_eq b hb2]
          · have hr := hrec a ha2
            refine ⟨hr.1, hr.2.1, ?_, ?_⟩
            · intro n hn
              cases hn
            · intro b hb
              rcases List.mem_cons.mp hb with rfl | hb2
              · rw [hrest_eq a ha2, hfc]
              · exact hr.2.2.2 b hb2
        | some n =>
          simp only [] at h
          by_cases hne : values.length ≠ n
          · rw [if_pos hne] at h
            cases h
          · rw [if_neg hne] at h
            have heq : values.length = n := by omega
            have hrec := ih (some n) (⟨values⟩ :: acc) dice h
            have hrest_eq : ∀ b ∈ rest, faceCount b = n := by
              intro b hb
              exact (hrec b hb).2.2.1 n rfl
            rcases List.mem_cons.mp ha with rfl | ha2
            · refine ⟨hnm, by omega, ?_, ?_⟩
              · intro n2 hn2
                cases hn2
                omega
              · intro b hb
                rcases List.mem_cons.mp hb with rfl | hb2
                · rfl
                · rw [hfc, hrest_eq b hb2, heq]
            · have hr := hrec a ha2
              refine ⟨hr.1, hr.2.1, ?_, ?_⟩
              · intro n2 hn2
                cases hn2
                exact hr.2.2.1 n rfl
              · intro b hb
                rcases List.mem_cons.mp hb with rfl | hb2
                · rw [hrest_eq a ha2, hfc, heq]
                · exact hr.2.2.2 b hb2

/-- When the validation loop succeeds with a fixed expected face count, every
die of the result was already accumulated or has exactly that face count. -/
theorem validateLoop_ok_length (rest : List String) :
    ∀ (n : Nat) (acc : List Dice) (dice : List Dice),
    validateLoop rest (some n) acc = .ok dice →
    ∀ d ∈ dice, d ∈ acc ∨ d.values.length = n := by
  induction rest with
  | nil =>
    intro n acc dice h d hd
    unfold validateLoop at h
    cases h
    exact Or.inl (List.mem_reverse.mp hd)
  | cons arg rest ih =>
    intro n acc dice h d hd
    unfold validateLoop at h
    cases hp : parseTokens (splitComma arg.data) with
    | none =>
      rw [hp] at h
      cases h
    | some values =>
      simp only [hp] at h
      by_cases h4 : values.length < 4
      · rw [if_pos h4] at h
        cases h
      · rw [if_neg h4] at h
        by_cases hne : values.length ≠ n
        · rw [if_pos hne] at h
          cases h
        · rw [if_neg hne] at h
          rcases ih n (⟨values⟩ :: acc) dice h d hd with hmem | hlen
          · rcases List.mem_cons.mp hmem with rfl | hacc
            · right
              show values.length = n
              omega
            · exact Or.inl hacc
          · exact Or.inr hlen

/-- Each error condition implies the failure disjunction. -/
theorem errorMatches_bad (args : List String) (e : ValidationError)
    (h : errorMatches args e) : badDiceArgs args := by
  cases e with
  | insufficientDice => exact Or.inl h
  | malformedDie a => exact Or.inr (Or.inl ⟨a, h.1, h.2⟩)
  | insufficientFaces a => exact Or.inr (Or.inr (Or.inl ⟨a, h.1, h.2⟩))
  | inconsistentFaceCount a =>
    rcases h with ⟨ha, b, hb, hne⟩
    exact Or.inr (Or.inr (Or.inr ⟨b, hb, a, ha, hne⟩))

/-- Claim C8: `validate_arguments` fails exactly when some token is not an
integer, or some die has fewer than 4 faces, or two dice have differing face
counts, or fewer than 3 dice are supplied — and succeeds otherwise; moreover
each returned error is evidence of its own condition (malformed token ↦
`malformedDie`, short die ↦ `insufficientFaces`, differing counts ↦
`inconsistentFaceCount`, too few dice ↦ `insufficientDice`). -/
theorem validate_arguments_spec (args : List String) :
    ((∃ dice, validate_arguments args = .ok dice) ↔ ¬ badDiceArgs args) ∧
    (∀ e, validate_arguments args = .error e → errorMatches args e) := by
  have herr : ∀ e, validate_arguments args = .error e → errorMatches args e := by
    intro e h
    unfold validate_arguments at h
    by_cases h3 : args.length < 3
    · rw [if_pos h3] at h
      cases h
      exact h3
    · rw [if_neg h3] at h
      have hres := validateLoop_error args none [] e h
      cases e with
      | insufficientDice => exact hres.elim
      | malformedDie a => exact hres
      | insufficientFaces a => exact hres
      | inconsistentFaceCount a =>
        refine ⟨hres.1, ?_⟩
        rcases hres.2 with ⟨b, hb, hbne⟩ | ⟨nn, hnn, _⟩
        · exact ⟨b, hb, hbne⟩
        · cases hnn
  refine ⟨⟨?_, ?_⟩, herr⟩
  · rintro ⟨dice, hv⟩ hbad
    unfold validate_arguments at hv
    by_cases h3 : args.length < 3
    · rw [if_pos h3] at hv
      cases hv
    · rw [if_neg h3] at hv
      have hall := validateLoop_ok args none [] dice hv
      rcases hbad with hlen | ⟨a, ha, hmal⟩ | ⟨a, ha, hfc⟩ | ⟨a, ha, b, hb, hne⟩
      · omega
      · exact (hall a ha).1 hmal
      · have := (hall a ha).2.1
        omega
      · exact hne ((hall a ha).2.2.2 b hb)
  · intro hnbad
    cases hv : validate_arguments args with
    | ok dice => exact ⟨dice, rfl⟩
    | error e => exact absurd (errorMatches_bad args e (herr e hv)) hnbad

/-- Witness for `validate_arguments_spec`: the three 4-face dice
`1,2,3,4  5,6,7,8  9,10,11,12` validate successfully, so none of the four
failure conditions holds for them. -/
theorem validate_arguments_spec_witness :
    ¬ badDiceArgs ["1,2,3,4", "5,6,7,8", "9,10,11,12"] :=
  (validate_arguments_spec ["1,2,3,4", "5,6,7,8", "9,10,11,12"]).1.mp
    ⟨[⟨[1, 2, 3, 4]⟩, ⟨[5, 6, 7, 8]⟩, ⟨[9, 10, 11, 12]⟩], rfl⟩

/-- Claim C10: after `validate_arguments` succeeds all dice share one face
count, so the single throw index `(computer_choice + user_choice) mod
len(computer_dice.values)` (gam4.py lines 126-130, game2.py lines 143-147) is
in bounds for the other party's die as well: neither face lookup can fail. -/
theorem validated_dice_shared_index_safe (args : List String) (dice : List Dice)
    (h : validate_arguments args = .ok dice) :
    (∀ d1 ∈ dice, ∀ d2 ∈ dice, d1.values.length = d2.values.length) ∧
    (∀ d1 ∈ dice, ∀ d2 ∈ dice, ∀ c u : Nat,
      (d2.values.get? ((c + u) % d1.values.length)).isSome = true) := by
  have hex : ∃ n, 4 ≤ n ∧ ∀ d ∈ dice, d.values.length = n := by
    unfold validate_arguments at h
    by_cases h3 : args.length < 3
    · rw [if_pos h3] at h
      cases h
    · rw [if_neg h3] at h
      cases args with
      | nil => simp at h3
      | cons arg rest =>
        unfold validateLoop at h
        cases hp : parseTokens (splitComma arg.data) with
        | none =>
          rw [hp] at h
          cases h
        | some values =>
          simp only [hp] at h
          by_cases h4 : values.length < 4
          · rw [if_pos h4] at h
            cases h
          · rw [if_neg h4] at h
            refine ⟨values.length, by omega, ?_⟩
            intro d hd
            rcases validateLoop_ok_length rest values.length [⟨values⟩] dice h d hd
              with hmem | hlen
            · rw [List.mem_singleton.mp hmem]
            · exact hlen
  rcases hex with ⟨n, hn4, hall⟩
  constructor
  · intro d1 h1 d2 h2
    rw [hall d1 h1, hall d2 h2]
  · intro d1 h1 d2 h2 c u
    have hlt : (c + u) % d1.values.length < d2.values.length := by
      rw [hall d1 h1, hall d2 h2]
      exact Nat.mod_lt _ (by omega)
    rw [List.get?_eq_get hlt]
    rfl

/-- Witness for `validated_dice_shared_index_safe`: with the validated dice
`1,2,3,4  5,6,7,8  9,10,11,12`, the index `(1 + 2) mod 4` is in bounds for the
third die. -/
theorem validated_dice_shared_index_safe_witness :
    (((⟨[9, 10, 11, 12]⟩ : Dice)).values.get?
      ((1 + 2) % ((⟨[1, 2, 3, 4]⟩ : Dice)).values.length)).isSome = true :=
  (validated_dice_shared_index_safe ["1,2,3,4", "5,6,7,8", "9,10,11,12"]
      [⟨[1, 2, 3, 4]⟩, ⟨[5, 6, 7, 8]⟩, ⟨[9, 10, 11, 12]⟩] rfl).2
    ⟨[1, 2, 3, 4]⟩ (by decide) ⟨[9, 10, 11, 12]⟩ (by decide) 1 2

/-- Who makes the first move. -/
inductive Player where
  | computer
  | user
deriving Repr, DecidableEq

/-- The protocol exchanges of one game session. -/
inductive Exchange where
  | turnOrder
  | dieSelect
  | throwResolution
deriving Repr, DecidableEq

/-- Observable protocol events of a session: publishing a commitment digest
(an HMAC printed before input is requested), reading one line of counterpart
input, and revealing a committed value together with its key. -/
inductive Ev where
  | publishCommit (e : Exchange)
  | readInput (e : Exchange)
  | revealCommit (e : Exchange)
deriving Repr, DecidableEq

/-- Scanning left to right: some input for exchange `e` is read before any
commitment for `e` has been published. -/
def readBeforePublish (e : Exchange) : List Ev → Bool
  | [] => false
  | Ev.publishCommit f :: rest =>
    if f = e then false else readBeforePublish e rest
  | Ev.readInput f :: rest =>
    if f = e then true else readBeforePublish e rest
  | Ev.revealCommit _ :: rest => readBeforePublish e rest

/-- Some input for exchange `e` is read after a commitment for `e` has been
revealed. -/
def readAfterReveal (e : Exchange) : List Ev → Bool
  | [] => false
  | Ev.revealCommit f :: rest =>
    if f = e then rest.any (fun x => x == Ev.readInput e) else readAfterReveal e rest
  | _ :: rest => readAfterReveal e rest

/-- Exchange `e` reads some counterpart input in the trace. -/
def readsInput (e : Exchange) (t : List Ev) : Bool :=
  t.any (fun x => x == Ev.readInput e)

/-- A commitment for exchange `e` is published somewhere in the trace. -/
def publishesCommit (e : Exchange) (t : List Ev) : Bool :=
  t.any (fun x => x == Ev.publishCommit e)

/-- `input().strip()` applied to one interactive line. -/
def pyStrip (s : String) : List Char := trimChars s.data

/-- Python's `str.lower()` on a stripped line. -/
def lowerChars (cs : List Char) : List Char := cs.map Char.toLower

/-- Python's `str.isdigit()` (ASCII): nonempty and all digits. -/
def isDigits (cs : List Char) : Bool := !cs.isEmpty && cs.all Char.isDigit

/-- `int(s)` for an all-digit string. -/
def digitsToNat (cs : List Char) : Nat :=
  cs.foldl (fun a c => a * 10 + (c.toNat - 48)) 0

namespace GamePy

/-- The guess loop of `DiceGame.determine_first_move` (game.py lines 92-117):
`rn` is the committed bit (`secrets.randbelow(2)`); each iteration consumes
one input line.  A valid guess (`0`/`1`) is read and then the bit and key are
revealed (line 99) before the winner is decided; `x`/`X` exits (outcome
`none`); `?` prints the help table and re-prompts; anything else re-prompts.
An empty input list models an interrupted session. -/
def dfmLoop (rn : Nat) : List String → List Ev × Option Player
  | [] => ([], none)
  | c :: rest =>
    let cs := pyStrip c
    if cs = ['0'] ∨ cs = ['1'] then
      ([.readInput .turnOrder, .revealCommit .turnOrder],
        some (if digitsToNat cs = rn then .user else .computer))
    else if lowerChars cs = ['x'] then ([.readInput .turnOrder], none)
    else
      let (t, o) := dfmLoop rn rest
      (.readInput .turnOrder :: t, o)

/-- `DiceGame.determine_first_move` (game.py lines 72-117): draws the bit,
generates a fresh key, publishes the HMAC commitment (line 84), then runs the
guess loop. -/
def determine_first_move (rn : Nat) (inputs : List String) :
    List Ev × Option Player :=
  let (t, o) := dfmLoop rn inputs
  (.publishCommit .turnOrder :: t, o)

end GamePy

/-- In the turn-order guess loop no reveal is followed by a read. -/
theorem dfmLoop_no_read_after_reveal (rn : Nat) (inputs : List String) :
    readAfterReveal .turnOrder (GamePy.dfmLoop rn inputs).1 = false := by
  induction inputs with
  | nil => rfl
  | cons c rest ih =>
    unfold GamePy.dfmLoop
    by_cases h1 : pyStrip c = ['0'] ∨ pyStrip c = ['1']
    · rw [if_pos h1]
      rfl
    · rw [if_neg h1]
      by_cases h2 : lowerChars (pyStrip c) = ['x']
      · rw [if_pos h2]
        rfl
      · rw [if_neg h2]
        simp only [readAfterReveal]
        exact ih

/-- Claim C2 amended, positive part: in `game.py`'s turn-order exchange the
commitment is published before any input is read (the publish event heads the
trace and no read precedes a publish), and no counterpart input is read after
the reveal — for every input script. -/
theorem gamePy_turn_order_commit_order (rn : Nat) (inputs : List String) :
    (GamePy.determine_first_move rn inputs).1.head? =
      some (.publishCommit .turnOrder) ∧
    readBeforePublish .turnOrder (GamePy.determine_first_move rn inputs).1 = false ∧
    readAfterReveal .turnOrder (GamePy.determine_first_move rn inputs).1 = false := by
  refine ⟨rfl, rfl, ?_⟩
  show readAfterReveal .turnOrder
    (Ev.publishCommit .turnOrder :: (GamePy.dfmLoop rn inputs).1) = false
  simp only [readAfterReveal]
  exact dfmLoop_no_read_after_reveal rn inputs

namespace Gam4

/-- The guess loop of `DiceGame.determine_first_move` (gam4.py lines 75-90;
the same loop appears in game2.py lines 83-98): like game.py's but with no
help option.  Returns the events, the outcome, and the unconsumed input. -/
def dfmLoop (rn : Nat) : List String → List Ev × Option Player × List String
  | [] => ([], none, [])
  | c :: rest =>
    let cs := pyStrip c
    if cs = ['0'] ∨ cs = ['1'] then
      ([.readInput .turnOrder, .revealCommit .turnOrder],
        some (if digitsToNat cs = rn then .user else .computer), rest)
    else if lowerChars cs = ['x'] then ([.readInput .turnOrder], none, rest)
    else
      let (t, o, rem) := dfmLoop rn rest
      (.readInput .turnOrder :: t, o, rem)

/-- `DiceGame.determine_first_move` (gam4.py lines 68-90): publishes the HMAC
commitment for the drawn bit, then runs the guess loop. -/
def determine_first_move (rn : Nat) (inputs : List String) :
    List Ev × Option Player × List String :=
  let (t, o, rem) := dfmLoop rn inputs
  (.publishCommit .turnOrder :: t, o, rem)

/-- The user branch of `DiceGame.play_turn` (gam4.py lines 98-108): repeats
until a digit string indexing one of the `count` available dice is entered. -/
def userSelectLoop (count : Nat) : List String → List Ev × Option Nat × List String
  | [] => ([], none, [])
  | c :: rest =>
    let cs := pyStrip c
    if isDigits cs ∧ digitsToNat cs < count then
      ([.readInput .dieSelect], some (digitsToNat cs), rest)
    else
      let (t, o, rem) := userSelectLoop count rest
      (.readInput .dieSelect :: t, o, rem)

/-- `DiceGame.manual_pick` (gam4.py lines 142-148): repeats until a digit
string below the face count is entered. -/
def manualPickLoop (count : Nat) : List String → List Ev × Option Nat × List String
  | [] => ([], none, [])
  | c :: rest =>
    let cs := pyStrip c
    if isDigits cs ∧ digitsToNat cs < count then
      ([.readInput .throwResolution], some (digitsToNat cs), rest)
    else
      let (t, o, rem) := manualPickLoop count rest
      (.readInput .throwResolution :: t, o, rem)

/-- The observable state of a finished (or interrupted) gam4.py session. -/
structure Session where
  events : List Ev
  first_player : Option Player
  computer_dice : Option Dice
  user_dice : Option Dice
  computer_choice : Option Nat
  user_choice : Option Nat
  index : Option Nat
  computer_throw : Option Int
  user_throw : Option Int
deriving Repr, DecidableEq

/-- A session that stopped after the turn-order phase. -/
def stopped (t : List Ev) (fp : Option Player) : Session :=
  ⟨t, fp, none, none, none, none, none, none, none⟩

/-- `DiceGame.play_game` (gam4.py lines 110-140): turn-order exchange, die
selection in the decided order (`secrets.randbelow` for the computer is the
parameter `cIdx`; removal from the pool is by the selected position), then —
with NO commitment — both throw contributions are read by `manual_pick`
(lines 123-124), combined into the single index
`(computer_choice + user_choice) mod len(computer_dice.values)` (line 127),
and both throws are looked up at that index (lines 129-130). -/
def play_game (rn cIdx : Nat) (dice_list : List Dice) (inputs : List String) :
    Session :=
  let (t1, fp, in1) := determine_first_move rn inputs
  match fp with
  | none => stopped t1 none
  | some p =>
    let sel : List Ev × Option (Dice × Dice) × List String :=
      match p with
      | .computer =>
        match dice_list.get? cIdx with
        | none => ([], none, in1)
        | some cd =>
          let rem := dice_list.eraseIdx cIdx
          let (t2, ui, in2) := userSelectLoop rem.length in1
          match ui with
          | none => (t2, none, in2)
          | some i =>
            match rem.get? i with
            | none => (t2, none, in2)
            | some ud => (t2, some (cd, ud), in2)
      | .user =>
        let (t2, ui, in2) := userSelectLoop dice_list.length in1
        match ui with
        | none => (t2, none, in2)
        | some i =>
          match dice_list.get? i with
          | none => (t2, none, in2)
          | some ud =>
            let rem := dice_list.eraseIdx i
            match rem.get? cIdx with
            | none => (t2, none, in2)
            | some cd => (t2, some (cd, ud), in2)
    let (t2, sel2, in2) := sel
    match sel2 with
    | none => stopped (t1 ++ t2) (some p)
    | some (cd, ud) =>
      let (t3, cc, in3) := manualPickLoop cd.values.length in2
      match cc with
      | none => ⟨t1 ++ t2 ++ t3, some p, some cd, some ud, none, none, none, none, none⟩
      | some c =>
        let (t4, uc, _) := manualPickLoop ud.values.length in3
        match uc with
        | none =>
          ⟨t1 ++ t2 ++ t3 ++ t4, some p, some cd, some ud, some c, none, none, none, none⟩
        | some u =>
          let idx := (c + u) % cd.values.length
          ⟨t1 ++ t2 ++ t3 ++ t4, some p, some cd, some ud, some c, some u, some idx,
            cd.values.get? idx, ud.values.get? idx⟩

end Gam4

/-- Claim C2 counterexample: in the gam4.py session with dice
`1,2,3,4  5,6,7,8  9,10,11,12`, bit 1, computer die index 0 and inputs
`0, 1, 0, 0`, the throw-resolution exchange reads counterpart input (both
contributions are `manual_pick` lines) although no commitment for that
exchange is ever published: input is read before (indeed without) any
commitment, violating publish-before-input for the throw exchanges. -/
theorem gam4_throw_input_without_commit :
    readsInput .throwResolution
      (Gam4.play_game 1 0 [⟨[1, 2, 3, 4]⟩, ⟨[5, 6, 7, 8]⟩, ⟨[9, 10, 11, 12]⟩]
        ["0", "1", "0", "0"]).events = true ∧
    publishesCommit .throwResolution
      (Gam4.play_game 1 0 [⟨[1, 2, 3, 4]⟩, ⟨[5, 6, 7, 8]⟩, ⟨[9, 10, 11, 12]⟩]
        ["0", "1", "0", "0"]).events = false ∧
    readBeforePublish .throwResolution
      (Gam4.play_game 1 0 [⟨[1, 2, 3, 4]⟩, ⟨[5, 6, 7, 8]⟩, ⟨[9, 10, 11, 12]⟩]
        ["0", "1", "0", "0"]).events = true := by
  refine ⟨rfl, rfl, rfl⟩

namespace Game2

/-- Symbolic model of `hmac.new(key, str(value).encode(), sha3_256).hexdigest()`
(`RandomFairGenerator.generate_hmac`, game2.py lines 24-28): a digest is
identified by the pair (committed integer, key identity) that produced it.
HMAC-SHA3-256 is deterministic and collision-free on distinct inputs, so
digest equality is input equality; keys are named by the index of the
`generate_secure_key` call that produced them. -/
structure HmacDigest where
  message : Int
  key : Nat
deriving Repr, DecidableEq

/-- `RandomFairGenerator.generate_hmac` (game2.py lines 24-28). -/
def generate_hmac (value : Int) (key : Nat) : HmacDigest := ⟨value, key⟩

/-- The result of the computer branch of `DiceGame.play_turn` (game2.py lines
101-113). -/
structure ComputerTurn where
  computer_dice : Dice
  secret_key : Nat
  computer_choice : Int
  digest : HmacDigest
deriving Repr, DecidableEq

/-- The computer branch of `DiceGame.play_turn` (game2.py lines 101-113):
generates a fresh key (line 102, identity `key`), picks the die
`available_dice[secrets.randbelow(len(available_dice))]` (lines 103-104,
draw `dieIdx`), draws `computer_number` by a fair draw over
`[0, len(die)-1]` (line 108, stream `fairDraws`), publishes its HMAC
(lines 109-110) and stores the number as `self.computer_choice` for later
validation (line 113).  `none` models the unreachable failure paths
(out-of-range die index, exhausted draw stream). -/
def play_turn_computer (available : List Dice) (key : Nat) (dieIdx : Nat)
    (fairDraws : List Nat) : Option ComputerTurn :=
  match available.get? dieIdx with
  | none => none
  | some d =>
    match generate_fair_number 0 ((d.values.length : Int) - 1) fairDraws with
    | .ok (some v) => some ⟨d, key, v, generate_hmac v key⟩
    | _ => none

/-- The outcome of the throw resolution of `DiceGame.play_game`. -/
structure Resolution where
  computer_choice : Int
  user_choice : Nat
  index : Nat
  computer_throw : Option Int
  user_throw : Option Int
deriving Repr, DecidableEq

/-- The throw resolution of `DiceGame.play_game` (game2.py lines 140-150):
line 140 draws a FRESH fair number for the computer (`fairDraws` is its
2-byte stream; the stored `self.computer_choice` from `play_turn` is not
consulted), `user_pick` is the user's `manual_pick` contribution (line 141),
`total = computer_choice + user_choice` (line 143), the single index is
`total % len(self.computer_dice.values)` (line 144), and both throws are read
at that one index (lines 146-147). -/
def play_game_resolution (computer_dice user_dice : Dice) (fairDraws : List Nat)
    (user_pick : Nat) : Except FairError (Option Resolution) :=
  match generate_fair_number 0 ((computer_dice.values.length : Int) - 1) fairDraws with
  | .error e => .error e
  | .ok none => .ok none
  | .ok (some c) =>
    let idx := (Int.fmod (c + (user_pick : Int))
      (computer_dice.values.length : Int)).toNat
    .ok (some ⟨c, user_pick, idx,
      computer_dice.values.get? idx, user_dice.values.get? idx⟩)

end Game2

/-- Claim C1 (code defect in game2.py): the committed value is not the value
used to resolve the throw.  With die `1,2,3,4`, key 1, die index 0 and commit
draw 2, `play_turn` commits `computer_number = 2` and publishes its digest;
but `play_game` line 140 draws a fresh number (draw 7 gives 3) and resolves
the throw with 3, so the digest recomputed from the value actually used does
not equal the published digest. -/
theorem game2_commit_value_unused :
    (Game2.play_turn_computer [⟨[1, 2, 3, 4]⟩, ⟨[5, 6, 7, 8]⟩, ⟨[9, 10, 11, 12]⟩]
        1 0 [2]
      = some ⟨⟨[1, 2, 3, 4]⟩, 1, 2, Game2.generate_hmac 2 1⟩) ∧
    (Game2.play_game_resolution ⟨[1, 2, 3, 4]⟩ ⟨[5, 6, 7, 8]⟩ [7] 1
      = .ok (some ⟨3, 1, 0, some 1, some 5⟩)) ∧
    Game2.generate_hmac 3 1 ≠ Game2.generate_hmac 2 1 :=
  ⟨rfl, rfl, by decide⟩

/-- Claim C3 counterexample: in game2.py's throw resolution the user's throw
is not resolved by an independent per-side exchange: with the user's own
contribution held fixed at 1, changing only the computer-side draw (0 to 1)
moves BOTH throws, because a single shared index
`(computer_choice + user_choice) mod len(computer_dice.values)` selects both
faces: the user's face changes from 20 (index 1) to 30 (index 2). -/
theorem game2_user_throw_depends_on_computer_draw :
    (Game2.play_game_resolution ⟨[1, 2, 3, 4]⟩ ⟨[10, 20, 30, 40]⟩ [0] 1
      = .ok (some ⟨0, 1, 1, some 2, some 20⟩)) ∧
    (Game2.play_game_resolution ⟨[1, 2, 3, 4]⟩ ⟨[10, 20, 30, 40]⟩ [1] 1
      = .ok (some ⟨1, 1, 2, some 3, some 30⟩)) ∧
    (some (20 : Int) ≠ some (30 : Int)) :=
  ⟨rfl, rfl, by decide⟩

/-- Claim C3 amended: the two throws are resolved by one shared exchange — a
single index `(computer_choice + user_choice) mod len(computer_dice.values)`
is computed, and both the computer's and the user's face are read from their
respective dice at that same index (after validation the two face counts are
equal, so the shared modulus coincides with each party's own face count). -/
theorem game2_resolution_shared_index (cd ud : Dice) (draws : List Nat)
    (up : Nat) (r : Game2.Resolution)
    (h : Game2.play_game_resolution cd ud draws up = .ok (some r)) :
    r.user_choice = up ∧
    r.index = (Int.fmod (r.computer_choice + (up : Int))
      (cd.values.length : Int)).toNat ∧
    r.computer_throw = cd.values.get? r.index ∧
    r.user_throw = ud.values.get? r.index := by
  unfold Game2.play_game_resolution at h
  cases hg : Game2.generate_fair_number 0 ((cd.values.length : Int) - 1) draws with
  | error e =>
    rw [hg] at h
    cases h
  | ok o =>
    rw [hg] at h
    cases o with
    | none => cases h
    | some c =>
      simp only [] at h
      cases h
      exact ⟨rfl, rfl, rfl, rfl⟩

/-- Witness for `game2_resolution_shared_index`: the concrete resolution with
computer draw 2 and user pick 1 reads the user's face at the shared index 3. -/
theorem game2_resolution_shared_index_witness :
    (⟨2, 1, 3, some 4, some 40⟩ : Game2.Resolution).user_throw
      = (⟨[10, 20, 30, 40]⟩ : Dice).values.get?
          (⟨2, 1, 3, some 4, some 40⟩ : Game2.Resolution).index :=
  (game2_resolution_shared_index ⟨[1, 2, 3, 4]⟩ ⟨[10, 20, 30, 40]⟩ [2] 1
    ⟨2, 1, 3, some 4, some 40⟩ rfl).2.2.2

namespace GamePy

/-- `RandomFairGenerator.generate_secure_key` modelled as a supply of distinct
key identities: call number `i` returns key `i` (every call yields a key
never produced before). -/
def generate_secure_key (supply : Nat) : Nat × Nat := (supply, supply + 1)

/-- The keys of one game.py session. -/
structure KeyFlow where
  init_key : Nat
  turn_order_revealed_key : Nat
  computer_throw_key : Nat
  user_throw_key : Nat
deriving Repr, DecidableEq

/-- The flow of `self.secret_key` through a game.py session, mirroring every
assignment and use: `__init__` (line 41) draws a key; `determine_first_move`
(line 80) overwrites it with a fresh key, which is printed (revealed) at line
99 together with the committed bit; `play_game` never draws another key, and
`generate_throw` (line 177) passes the current `self.secret_key` to
`generate_fair_number` for the computer's throw (line 157) and again for the
user's throw (line 161); lines 164-165 print that same key for both throws. -/
def play_game_key_flow (supply : Nat) : KeyFlow :=
  let (k0, supply1) := generate_secure_key supply
  let (k1, _) := generate_secure_key supply1
  let throw_key_computer := k1
  let throw_key_user := k1
  ⟨k0, k1, throw_key_computer, throw_key_user⟩

end GamePy

/-- Claim C5 counterexample: in the game.py session the key used to produce
(and printed with) both parties' throws is exactly the key already revealed
at the end of the turn-order exchange — the revealed key IS reused. -/
theorem gamePy_revealed_key_reused :
    (GamePy.play_game_key_flow 0).computer_throw_key
        = (GamePy.play_game_key_flow 0).turn_order_revealed_key ∧
    (GamePy.play_game_key_flow 0).user_throw_key
        = (GamePy.play_game_key_flow 0).turn_order_revealed_key :=
  ⟨rfl, rfl⟩

/-- Claim C5 amended: game.py generates a fresh key for the turn-order
commitment (distinct from the `__init__` key), reveals it, and then reuses
that same revealed key to produce both parties' throws; no fresh key is
generated per throw exchange. -/
theorem gamePy_key_reuse (supply : Nat) :
    (GamePy.play_game_key_flow supply).computer_throw_key
        = (GamePy.play_game_key_flow supply).turn_order_revealed_key ∧
    (GamePy.play_game_key_flow supply).user_throw_key
        = (GamePy.play_game_key_flow supply).turn_order_revealed_key ∧
    (GamePy.play_game_key_flow supply).init_key
        ≠ (GamePy.play_game_key_flow supply).turn_order_revealed_key := by
  refine ⟨rfl, rfl, ?_⟩
  show supply ≠ supply + 1
  omega

namespace GamePy

/-- `TableGenerator.simulate_game` (game.py lines 200-213): 10000 Monte-Carlo
trials; trial `i` draws `secrets.choice(dice1.values)` and
`secrets.choice(dice2.values)`, modelled by the index pair `rolls i` into the
two face lists; counts strict wins of dice1 and draws, and returns
`wins / (total - draws)` as an exact rational — Python's float division
raises `ZeroDivisionError` when every trial tied. -/
def simulate_game (dice1 dice2 : Dice) (rolls : Nat → Nat × Nat) :
    Except FairError Rat :=
  let total := 10000
  let outcomes := (List.range total).map fun i =>
    (dice1.values.getD (rolls i).1 0, dice2.values.getD (rolls i).2 0)
  let wins := outcomes.countP fun p => decide (p.2 < p.1)
  let draws := outcomes.countP fun p => p.1 == p.2
  if total - draws = 0 then .error .divisionByZero
  else .ok ((wins : Rat) / ((total - draws : Nat) : Rat))

end GamePy

/-- Counting a constant-valued map: the count is all or nothing. -/
theorem countP_map_const {α β : Type} (l : List α) (c : β) (p : β → Bool) :
    (l.map (fun _ => c)).countP p = if p c then l.length else 0 := by
  rw [List.countP_map]
  by_cases h : p c
  · rw [if_pos h]
    apply List.countP_eq_length.mpr
    intro a _
    exact h
  · rw [if_neg h]
    apply List.countP_eq_zero.mpr
    intro a _
    exact h

/-- Evaluation of `simulate_game` when every trial draws the same index pair:
all 10000 comparisons coincide, so the estimate collapses to 1, 0, or a
division by zero on an all-tie run. -/
theorem simulate_game_const (d1 d2 : Dice) (i j : Nat) :
    GamePy.simulate_game d1 d2 (fun _ => (i, j)) =
      (if d1.values.getD i 0 == d2.values.getD j 0 then .error .divisionByZero
       else .ok (if d2.values.getD j 0 < d1.values.getD i 0 then 1 else 0)) := by
  unfold GamePy.simulate_game
  simp only []
  rw [countP_map_const, countP_map_const, List.length_range]
  by_cases h : d1.values.getD i 0 == d2.values.getD j 0
  · rw [if_pos h, if_pos h]
    norm_num
  · rw [if_neg h, if_neg h]
    have hz : ¬((10000 : Nat) - 0 = 0) := by omega
    rw [if_neg hz]
    by_cases h2 : d2.values.getD j 0 < d1.values.getD i 0
    · rw [if_pos (decide_eq_true h2), if_pos h2]
      norm_num
    · rw [if_neg (by simpa using h2), if_neg h2]
      norm_num

/-- Claim C9 counterexample: `simulate_game` is randomized, not a
deterministic enumeration — two evaluations on the same pair of dice with
different sampled streams return different results (1 versus 0). -/
theorem simulate_game_nondeterministic :
    GamePy.simulate_game ⟨[0, 5, 0, 0]⟩ ⟨[3, 3, 3, 3]⟩ (fun _ => (1, 0)) = .ok 1 ∧
    GamePy.simulate_game ⟨[0, 5, 0, 0]⟩ ⟨[3, 3, 3, 3]⟩ (fun _ => (0, 0)) = .ok 0 ∧
    (Except.ok (1 : Rat) : Except FairError Rat) ≠ .ok 0 := by
  refine ⟨?_, ?_, ?_⟩
  · rw [simulate_game_const]
    norm_num
  · rw [simulate_game_const]
    norm_num
  · intro hcontra
    have h1 : (1 : Rat) = 0 := Except.ok.inj hcontra
    norm_num at h1

/-- Claim C9 amended: `simulate_game` is a Monte-Carlo estimator over 10000
sampled ordered face pairs (dependent on the random stream, hence not
deterministic, and not an enumeration of all `len(a)*len(b)` pairs); whenever
it returns, the returned estimate lies in `[0, 1]` — strict wins among the
10000 samples divided by the number of non-tied samples. -/
theorem simulate_game_estimate_in_unit_interval (d1 d2 : Dice)
    (rolls : Nat → Nat × Nat) (q : Rat)
    (h : GamePy.simulate_game d1 d2 rolls = .ok q) : 0 ≤ q ∧ q ≤ 1 := by
  unfold GamePy.simulate_game at h
  simp only [] at h
  set outcomes := (List.range 10000).map (fun i =>
    (d1.values.getD (rolls i).1 0, d2.values.getD (rolls i).2 0)) with houtc
  set wins := outcomes.countP (fun p => decide (p.2 < p.1)) with hwins
  set draws := outcomes.countP (fun p => p.1 == p.2) with hdraws
  by_cases hz : (10000 : Nat) - draws = 0
  · rw [if_pos hz] at h
    cases h
  · rw [if_neg hz] at h
    have hq : q = (wins : Rat) / (((10000 : Nat) - draws : Nat) : Rat) :=
      (Except.ok.inj h).symm
    have hlen : outcomes.length = 10000 := by
      rw [houtc, List.length_map, List.length_range]
    have hwd : wins + draws ≤ 10000 := by
      have hsplit := List.length_eq_countP_add_countP
        (p := fun p : Int × Int => p.1 == p.2) (l := outcomes)
      rw [hlen, ← hdraws] at hsplit
      have hsplit2 : (10000 : Nat)
          = draws + outcomes.countP (fun a : Int × Int => ¬(a.1 == a.2)) := hsplit
      have hmono : wins ≤ outcomes.countP
          (fun a : Int × Int => ¬(a.1 == a.2)) := by
        rw [hwins]
        apply List.countP_mono_left
        intro x _ hx
        simp only [decide_eq_true_eq] at hx ⊢
        intro hxeq
        rw [beq_iff_eq] at hxeq
        omega
      omega
    have hdenpos : (0 : Rat) < (((10000 : Nat) - draws : Nat) : Rat) := by
      have : 0 < (10000 : Nat) - draws := by omega
      exact_mod_cast this
    constructor
    · rw [hq]
      apply div_nonneg
      · exact_mod_cast Nat.zero_le wins
      · exact le_of_lt hdenpos
    · rw [hq]
      rw [div_le_one hdenpos]
      have : wins ≤ (10000 : Nat) - draws := by omega
      exact_mod_cast this

/-- Witness for `simulate_game_estimate_in_unit_interval`: the all-win run on
dice `0,5,0,0` versus `3,3,3,3` returns the estimate 1, which lies in [0,1]. -/
theorem simulate_game_estimate_witness : (0 : Rat) ≤ 1 ∧ (1 : Rat) ≤ 1 :=
  simulate_game_estimate_in_unit_interval ⟨[0, 5, 0, 0]⟩ ⟨[3, 3, 3, 3]⟩
    (fun _ => (1, 0)) 1 (by rw [simulate_game_const]; norm_num)
